import Mathlib

/-!
Verification of the pi_cam repository (listen.py, viewer_central.py,
main_trigger.py) against its natural-language specification.

The Python code is shallowly embedded: pure helpers become Lean functions on
`List Char` / `List Nat` (byte) values, clock reads (`time.time()`) and
filesystem / network effects are passed in explicitly as oracles, and rational
numbers stand for Python floats (exact arithmetic; the trigger protocol's
timestamps are short decimal literals).
-/

namespace PiCam

/-! ## Configuration constants (listen.py lines 11-34, viewer_central.py 14-18) -/

def SAVE_DIR : List Char := "/home/pi/captures".data

def FILENAME_PREFIX_DEFAULT : List Char := "capture".data

def DEFAULT_DELAY_SEC : ℚ := 8 / 10

def TRIGGER_SETTLE_SEC : ℚ := 12 / 100

def PI_IPS : List (List Char) := ["192.168.0.3".data, "192.168.0.2".data, "192.168.0.4".data]

/-! ## Generic string / byte-list helpers -/

/-- `startsWithL s pat` : does `s` begin with `pat` (Python `str.startswith`). -/
def startsWithL {α : Type} [DecidableEq α] : List α → List α → Bool
  | _, [] => true
  | [], _ :: _ => false
  | c :: cs, p :: ps => c = p && startsWithL cs ps

/-- `containsSeq pat s` : does `pat` occur as a contiguous run in `s`
(Python `pat in s` for strings / bytes). -/
def containsSeq {α : Type} [DecidableEq α] (pat : List α) : List α → Bool
  | [] => startsWithL ([] : List α) pat
  | x :: xs => startsWithL (x :: xs) pat || containsSeq pat xs

/-- The whitespace characters stripped by Python's `str.strip()` (ASCII range;
the trigger protocol is ASCII text). -/
def isPySpace (c : Char) : Bool :=
  c = ' ' || c = '\t' || c = '\n' || c = '\x0d' || c = '\x0b' || c = '\x0c'

/-- Python `str.strip()`: remove leading and trailing whitespace. -/
def pyStrip (s : List Char) : List Char :=
  ((s.dropWhile isPySpace).reverse.dropWhile isPySpace).reverse

/-- Numeric value of a run of decimal digit characters. -/
def natOfDigits (ds : List Char) : ℕ :=
  ds.foldl (fun acc c => 10 * acc + (c.toNat - 48)) 0

/-- Model of Python's builtin `float()` on decimal strings: surrounding
whitespace, an optional sign, an integer and/or fractional digit part, and an
optional decimal exponent.  (The special forms `inf`/`nan` and underscore
digit separators, which the trigger protocol never carries, are out of the
modelled subset and return `none`, as does every non-numeric string.)
The value is represented exactly as a rational. -/
def pyFloat? (s : List Char) : Option ℚ :=
  let s0 := pyStrip s
  let sgnRest : ℚ × List Char :=
    match s0 with
    | '+' :: r => (1, r)
    | '-' :: r => (-1, r)
    | _ => (1, s0)
  let ip := sgnRest.2.takeWhile Char.isDigit
  let s2 := sgnRest.2.dropWhile Char.isDigit
  let fpRest : Option (List Char) × List Char :=
    match s2 with
    | '.' :: r => (some (r.takeWhile Char.isDigit), r.dropWhile Char.isDigit)
    | _ => (none, s2)
  if ip = [] ∧ (fpRest.1 = none ∨ fpRest.1 = some []) then none
  else
    let mant : ℚ :=
      (natOfDigits ip : ℚ) +
        (match fpRest.1 with
         | some f => (natOfDigits f : ℚ) / 10 ^ f.length
         | none => 0)
    match fpRest.2 with
    | [] => some (sgnRest.1 * mant)
    | e :: r =>
      if e = 'e' ∨ e = 'E' then
        let esgnRest : ℤ × List Char :=
          match r with
          | '+' :: r2 => (1, r2)
          | '-' :: r2 => (-1, r2)
          | _ => (1, r)
        let ed := esgnRest.2.takeWhile Char.isDigit
        if ed = [] ∨ esgnRest.2.dropWhile Char.isDigit ≠ [] then none
        else some (sgnRest.1 * mant * (10 : ℚ) ^ (esgnRest.1 * (natOfDigits ed : ℤ)))
      else none

/-- Model of Python's `bytes.decode("utf-8", errors="ignore")`: standard
UTF-8 decoding (rejecting overlong forms, surrogates and values above
U+10FFFF); the bytes of an invalid or truncated sequence are skipped
instead of raising, resuming at the first offending byte. -/
def decodeUtf8Ignore : List ℕ → List Char
  | [] => []
  | b1 :: r1 =>
    if b1 < 0x80 then Char.ofNat b1 :: decodeUtf8Ignore r1
    else if 0xC2 ≤ b1 ∧ b1 ≤ 0xDF then
      match r1 with
      | b2 :: r2 =>
        if 0x80 ≤ b2 ∧ b2 ≤ 0xBF then
          Char.ofNat ((b1 - 0xC0) * 64 + (b2 - 0x80)) :: decodeUtf8Ignore r2
        else decodeUtf8Ignore (b2 :: r2)
      | [] => []
    else if 0xE0 ≤ b1 ∧ b1 ≤ 0xEF then
      match r1 with
      | b2 :: r2 =>
        if (if b1 = 0xE0 then 0xA0 ≤ b2 ∧ b2 ≤ 0xBF
            else if b1 = 0xED then 0x80 ≤ b2 ∧ b2 ≤ 0x9F
            else 0x80 ≤ b2 ∧ b2 ≤ 0xBF) then
          match r2 with
          | b3 :: r3 =>
            if 0x80 ≤ b3 ∧ b3 ≤ 0xBF then
              Char.ofNat ((b1 - 0xE0) * 4096 + (b2 - 0x80) * 64 + (b3 - 0x80)) ::
                decodeUtf8Ignore r3
            else decodeUtf8Ignore (b3 :: r3)
          | [] => []
        else decodeUtf8Ignore (b2 :: r2)
      | [] => []
    else if 0xF0 ≤ b1 ∧ b1 ≤ 0xF4 then
      match r1 with
      | b2 :: r2 =>
        if (if b1 = 0xF0 then 0x90 ≤ b2 ∧ b2 ≤ 0xBF
            else if b1 = 0xF4 then 0x80 ≤ b2 ∧ b2 ≤ 0x8F
            else 0x80 ≤ b2 ∧ b2 ≤ 0xBF) then
          match r2 with
          | b3 :: r3 =>
            if 0x80 ≤ b3 ∧ b3 ≤ 0xBF then
              match r3 with
              | b4 :: r4 =>
                if 0x80 ≤ b4 ∧ b4 ≤ 0xBF then
                  Char.ofNat ((b1 - 0xF0) * 262144 + (b2 - 0x80) * 4096 +
                      (b3 - 0x80) * 64 + (b4 - 0x80)) :: decodeUtf8Ignore r4
                else decodeUtf8Ignore (b4 :: r4)
              | [] => []
            else decodeUtf8Ignore (b3 :: r3)
          | [] => []
        else decodeUtf8Ignore (b2 :: r2)
      | [] => []
    else decodeUtf8Ignore r1

/-- ASCII text as the byte payload of a datagram. -/
def encodeAscii (s : List Char) : List ℕ := s.map Char.toNat

/-! ## listen.py : trigger message codec and filename builder -/

/-- Embedding of `listen.parse_message` (listen.py 77-98).  `time.time()` is
passed in explicitly as `now`.  Returns `none` where the Python returns
`None`, else the (shoot time, filename prefix) pair. -/
def parse_message (now : ℚ) (data : List ℕ) : Option (ℚ × List Char) :=
  let text := pyStrip (decodeUtf8Ignore data)
  if startsWithL text "shoot".data then
    let parts := text.splitOn ':'
    if parts.length = 1 then some (now + DEFAULT_DELAY_SEC, FILENAME_PREFIX_DEFAULT)
    else
      let shoot_time := (pyFloat? (parts.getD 1 [])).getD (now + DEFAULT_DELAY_SEC)
      let pfx := if 3 ≤ parts.length ∧ parts.getD 2 [] ≠ [] then parts.getD 2 []
                 else FILENAME_PREFIX_DEFAULT
      some (shoot_time, pfx)
  else none

/-- Two-argument POSIX `os.path.join`: an absolute second component replaces
the first; otherwise the parts are joined with a single separator. -/
def posixJoin (a b : List Char) : List Char :=
  match b with
  | '/' :: _ => b
  | _ =>
    if a = [] then b
    else if a.getLast? = some '/' then a ++ b
    else a ++ '/' :: b

/-- Embedding of `listen.make_filename` (listen.py 72-74); the
`datetime.now()` timestamp string is passed in as `ts`. -/
def make_filename (pfx ts : List Char) : List Char :=
  posixJoin SAVE_DIR (pfx ++ '_' :: (ts ++ ".jpg".data))

/-! ## listen.py : frame demultiplexer (_mjpeg_frames, lines 302-321) -/

/-- `bytes.find` for a two-byte pattern: index of the first `i` with
`l[i] = a` and `l[i+1] = b`, if any. -/
def findPair (a b : ℕ) : List ℕ → Option ℕ
  | [] => none
  | [_] => none
  | x :: y :: r =>
    if x = a ∧ y = b then some 0
    else (findPair a b (y :: r)).map (· + 1)

theorem findPair_some_le {a b : ℕ} {l : List ℕ} {i : ℕ}
    (h : findPair a b l = some i) : i + 2 ≤ l.length := by
  induction l generalizing i with
  | nil => simp [findPair] at h
  | cons x tl ih =>
    match tl with
    | [] => simp [findPair] at h
    | y :: r =>
      rw [findPair] at h
      split at h
      · cases h; simp
      · simp only [Option.map_eq_some'] at h
        obtain ⟨j, hj, rfl⟩ := h
        have := ih hj
        simpa using Nat.succ_le_succ this

/-- One pass of the inner `while True` loop of `_mjpeg_frames` over the
accumulated buffer `buf`: returns the frames emitted from `buf` and the
buffer retained for the next read.  A buffer with no start-of-image marker
is discarded (`buf = b""`); a start marker without a matching end marker is
retained from the start marker onward. -/
def demuxStep (buf : List ℕ) : List (List ℕ) × List ℕ :=
  match h1 : findPair 0xFF 0xD8 buf with
  | none => ([], [])
  | some start =>
    match findPair 0xFF 0xD9 (buf.drop (start + 2)) with
    | none => ([], if 0 < start then buf.drop start else buf)
    | some r =>
      let rest := demuxStep (buf.drop (start + 2 + r + 2))
      ((buf.take (start + 2 + r + 2)).drop start :: rest.1, rest.2)
termination_by buf.length
decreasing_by
  have h2 := findPair_some_le h1
  simp only [List.length_drop]
  omega

/-- The read loop of `_mjpeg_frames`: `chunks` are the successive results of
`proc.stdout.read(65536)`; an empty chunk (or the end of the list) is the
end of the stream and terminates the generator. -/
def mjpegRead : List ℕ → List (List ℕ) → List (List ℕ)
  | _, [] => []
  | buf, chunk :: rest =>
    if chunk = [] then []
    else
      let st := demuxStep (buf ++ chunk)
      st.1 ++ mjpegRead st.2 rest

/-- Embedding of `listen._mjpeg_frames` (listen.py 302-321): the list of JPEG
frames produced from the given sequence of read chunks. -/
def mjpeg_frames (chunks : List (List ℕ)) : List (List ℕ) :=
  mjpegRead [] chunks

/-- A well-formed JPEG byte span in the sense of the spec: it begins with the
start-of-image marker `FF D8` and it ends at the first end-of-image marker
`FF D9` that follows the start marker (searching from offset 2), that marker
being its final two bytes. -/
def isJpegSpan (f : List ℕ) : Bool :=
  startsWithL f [0xFF, 0xD8] &&
    decide (findPair 0xFF 0xD9 (f.drop 2) = some (f.length - 4))

/-! ## listen.py : capture scheduler (busy_wait_until, lines 62-69, and the
settle/capture sequence of main, lines 443-451) -/

/-- Embedding of `listen.busy_wait_until`: `clock n` is the value returned by
the `n`-th call of `time.time()` inside the loop (sleeping only moves the
clock forward between calls).  The loop returns at the first call whose
reading has reached `t`; the returned value is that reading. -/
def busy_wait_until (clock : ℕ → ℚ) (t : ℚ) (h : ∃ n, t ≤ clock n) : ℚ :=
  clock (Nat.find h)

/-- The instant at which `main` (listen.py 443-451) invokes the capture
utility for one trigger: after `busy_wait_until(shoot_time)` returns it
sleeps `TRIGGER_SETTLE_SEC` (guarded by `TRIGGER_SETTLE_SEC > 0`);
`sleepDur` is the duration actually slept (a real `time.sleep` may
overshoot its argument but never undershoots). -/
def capture_invocation_time (clock : ℕ → ℚ) (shoot_time : ℚ)
    (h : ∃ n, shoot_time ≤ clock n) (sleepDur : ℚ) : ℚ :=
  busy_wait_until clock shoot_time h +
    (if 0 < TRIGGER_SETTLE_SEC then sleepDur else 0)

/-! ## listen.py : camera resource arbiter (_kill_stream lines 43-53,
capture_jpeg lines 113-124), sequential view -/

/-- A child-process handle as `_kill_stream` observes it: `alive` is
`poll() is None`. -/
structure Proc where
  alive : Bool
deriving DecidableEq

/-- The module-level `_stream_proc` handle. -/
structure CamState where
  streamProc : Option Proc
deriving DecidableEq

/-- Observable actions of the capture-acquisition path, in program order. -/
inductive CamAct
  | terminate
  | waitExit
  | forceKill
  | runCaptureUtility
deriving DecidableEq

/-- Is some live-stream process currently running? -/
def streamAlive (s : CamState) : Bool :=
  match s.streamProc with
  | some p => p.alive
  | none => false

/-- Embedding of `listen._kill_stream` (lines 43-53): if a stream process is
recorded and still running, terminate it, wait up to 2 s for it to exit
(`exitsInTime` says whether it does) and force-kill it on timeout, then clear
the handle; otherwise do nothing.  Returns the new state and the actions
performed. -/
def kill_stream (exitsInTime : Bool) (s : CamState) : CamState × List CamAct :=
  match s.streamProc with
  | some p =>
    if p.alive then
      (⟨none⟩, if exitsInTime then [.terminate, .waitExit]
               else [.terminate, .waitExit, .forceKill])
    else (s, [])
  | none => (s, [])

/-- Embedding of `listen.capture_jpeg` (lines 113-124): free the camera via
`_kill_stream`, then run the capture utility. -/
def capture_jpeg (exitsInTime : Bool) (s : CamState) : CamState × List CamAct :=
  let st := kill_stream exitsInTime s
  (st.1, st.2 ++ [.runCaptureUtility])

/-! ## listen.py / viewer_central.py : artifact fetch endpoints -/

/-- Outcome of an HTTP handler, as the claims distinguish them. -/
inductive HttpResp
  | badRequest
  | notFound
  | badGateway
  | sendFile (path : List Char)
  | okBytes (body : List ℕ)
deriving DecidableEq

/-- Embedding of the `/img/<filename>` handler `serve_image`
(listen.py 359-366).  `fileExists` is the `os.path.isfile` oracle; the second
component of the result is the list of paths the handler touched on the
filesystem, in order. -/
def serve_image (fileExists : List Char → Bool) (filename : List Char) :
    HttpResp × List (List Char) :=
  if containsSeq "/".data filename || containsSeq "..".data filename then
    (.badRequest, [])
  else
    let path := posixJoin SAVE_DIR filename
    if fileExists path then (.sendFile path, [path]) else (.notFound, [path])

/-- URL of a node image, as `viewer_central.proxy_image` builds it. -/
def piImageUrl (ip filename : List Char) : List Char :=
  "http://".data ++ ip ++ ":8080/img/".data ++ filename

/-- Embedding of the `/img/<int:pi_idx>/<filename>` handler `proxy_image`
(viewer_central.py 425-438).  `upstream` is the `urllib.request.urlopen`
oracle: `none` means the call raised — a transport error, or an upstream
HTTP error status such as the node's 404 for an absent artifact, for which
`urlopen` raises `HTTPError`; the blanket `except Exception` maps every
such case to `abort(502)`.  The second component is the list of upstream
URLs the handler requested, in order. -/
def proxy_image (upstream : List Char → Option (List ℕ)) (pi_idx : ℤ)
    (filename : List Char) : HttpResp × List (List Char) :=
  if pi_idx < 0 ∨ (PI_IPS.length : ℤ) ≤ pi_idx then (.badRequest, [])
  else if containsSeq "/".data filename || containsSeq "..".data filename then
    (.badRequest, [])
  else
    let ip := PI_IPS.getD pi_idx.toNat []
    let url := piImageUrl ip filename
    match upstream url with
    | some d => (.okBytes d, [url])
    | none => (.badGateway, [url])

/-! ## viewer_central.py : inventory aggregation (fetch_pi_images 23-30,
index 408-422) -/

/-- The fields `index` reads from a node's decoded `/images.json` response
(`result.get("hostname", ip)`, `result.get("images", [])`). -/
structure InvResult where
  hostname : Option (List Char)
  images : Option (List (List Char))
deriving DecidableEq

/-- One entry of `pis_data` as `index` builds it: either
`{"ip": ip, "online": False}` or
`{"ip": ip, "online": True, "hostname": h, "images": imgs}`. -/
inductive PiEntry
  | offline (ip : List Char)
  | online (ip hostname : List Char) (images : List (List Char))
deriving DecidableEq

/-- Embedding of the aggregation loop of `viewer_central.index`
(lines 408-422) over an explicit `fetch_pi_images` oracle: `fetch ip = none`
models a timeout or any transport error for that node. -/
def index_pis_data (fetch : List Char → Option InvResult)
    (ips : List (List Char)) : List PiEntry :=
  ips.map fun ip =>
    match fetch ip with
    | none => .offline ip
    | some r => .online ip (r.hostname.getD ip) (r.images.getD [])

/-! ## listen.py : interleaved stream acquisition (generate, lines 372-402)

The `/stream` handler's acquisition sequence is three steps:
`_kill_stream()` (which takes `_stream_lock` internally), then
`subprocess.Popen` with **no lock held**, then `with _stream_lock:
_stream_proc = proc`.  Two concurrent requests interleave these steps; each
lock-protected step is one atomic transition of the model below. -/

/-- Global state shared by the stream-request threads: the alive flag of every
process spawned so far (process id = spawn index), the module-level
`_stream_proc` handle, and per-thread program counter and local `proc`
variable (threads `false` and `true`). -/
structure StreamSys where
  procs : List Bool
  handle : Option ℕ
  pc0 : ℕ
  my0 : Option ℕ
  pc1 : ℕ
  my1 : Option ℕ
deriving DecidableEq

def streamInit : StreamSys := ⟨[], none, 0, none, 0, none⟩

/-- Number of camera-owning processes currently running. -/
def aliveCount (s : StreamSys) : ℕ := s.procs.count true

/-- The atomic `_kill_stream` body (lock held throughout): if the recorded
handle is alive, terminate it and clear the handle. -/
def killStreamStep (s : StreamSys) : StreamSys :=
  match s.handle with
  | some i =>
    if s.procs.getD i false then
      { s with procs := s.procs.set i false, handle := none }
    else s
  | none => s

/-- One scheduler step: run the next statement of thread `tid`'s
`generate` acquisition sequence (kill → spawn → record → done). -/
def streamStep (tid : Bool) (s : StreamSys) : StreamSys :=
  let pc := if tid then s.pc1 else s.pc0
  match pc with
  | 0 =>
    let s' := killStreamStep s
    if tid then { s' with pc1 := 1 } else { s' with pc0 := 1 }
  | 1 =>
    let pid := s.procs.length
    if tid then { s with procs := s.procs ++ [true], my1 := some pid, pc1 := 2 }
    else { s with procs := s.procs ++ [true], my0 := some pid, pc0 := 2 }
  | 2 =>
    if tid then { s with handle := s.my1, pc1 := 3 }
    else { s with handle := s.my0, pc0 := 3 }
  | _ => s

/-- Run a schedule (a list of thread ids) from the initial state. -/
def streamRun (sched : List Bool) : StreamSys :=
  sched.foldl (fun s tid => streamStep tid s) streamInit

/-- The two-byte pattern `a b` occurs in `l` at index `i`. -/
def pairAt (a b : ℕ) (l : List ℕ) (i : ℕ) : Prop :=
  l[i]? = some a ∧ l[i + 1]? = some b

/-! ## Helper lemmas -/

theorem pairAt_cons_succ {a b x : ℕ} {l : List ℕ} {j : ℕ} :
    pairAt a b (x :: l) (j + 1) ↔ pairAt a b l j := by
  simp [pairAt]

theorem pairAt_cons₂_zero {a b x y : ℕ} {l : List ℕ} :
    pairAt a b (x :: y :: l) 0 ↔ x = a ∧ y = b := by
  simp [pairAt, eq_comm]

theorem pairAt_lt_length {a b : ℕ} {l : List ℕ} {i : ℕ} (h : pairAt a b l i) :
    i + 1 < l.length := by
  rcases h with ⟨-, h2⟩
  by_contra hge
  rw [List.getElem?_eq_none (by omega)] at h2
  cases h2

theorem findPair_eq_some_iff {a b : ℕ} {l : List ℕ} {i : ℕ} :
    findPair a b l = some i ↔ pairAt a b l i ∧ ∀ j < i, ¬ pairAt a b l j := by
  induction l generalizing i with
  | nil => simp [findPair, pairAt]
  | cons x tl ih =>
    match tl with
    | [] => simp [findPair, pairAt]
    | y :: r =>
      rw [findPair]
      by_cases hxy : x = a ∧ y = b
      · rw [if_pos hxy]
        constructor
        · intro h
          cases h
          exact ⟨pairAt_cons₂_zero.mpr hxy, by omega⟩
        · rintro ⟨hp, hmin⟩
          match i with
          | 0 => rfl
          | i' + 1 => exact absurd (pairAt_cons₂_zero.mpr hxy) (hmin 0 (Nat.succ_pos _))
      · rw [if_neg hxy]
        constructor
        · intro h
          simp only [Option.map_eq_some'] at h
          obtain ⟨j, hj, rfl⟩ := h
          obtain ⟨hp, hmin⟩ := ih.mp hj
          refine ⟨pairAt_cons_succ.mpr hp, ?_⟩
          intro m hm
          match m with
          | 0 => rw [pairAt_cons₂_zero]; exact hxy
          | m' + 1 =>
            rw [pairAt_cons_succ]
            exact hmin m' (by omega)
        · rintro ⟨hp, hmin⟩
          match i with
          | 0 => exact absurd (pairAt_cons₂_zero.mp hp) hxy
          | i' + 1 =>
            have hrec : findPair a b (y :: r) = some i' :=
              ih.mpr ⟨pairAt_cons_succ.mp hp,
                fun j hj hc => hmin (j + 1) (by omega) (pairAt_cons_succ.mpr hc)⟩
            simp [hrec]

theorem findPair_eq_none_iff {a b : ℕ} {l : List ℕ} :
    findPair a b l = none ↔ ∀ j, ¬ pairAt a b l j := by
  induction l with
  | nil => simp [findPair, pairAt]
  | cons x tl ih =>
    match tl with
    | [] => simp [findPair, pairAt]
    | y :: r =>
      rw [findPair]
      by_cases hxy : x = a ∧ y = b
      · rw [if_pos hxy]
        apply iff_of_false (by simp)
        intro hall
        exact hall 0 (pairAt_cons₂_zero.mpr hxy)
      · rw [if_neg hxy]
        simp only [Option.map_eq_none']
        rw [ih]
        constructor
        · intro hall j
          match j with
          | 0 => rw [pairAt_cons₂_zero]; exact hxy
          | j' + 1 => rw [pairAt_cons_succ]; exact hall j'
        · intro hall j
          have := hall (j + 1)
          rwa [pairAt_cons_succ] at this

theorem pairAt_append_left {a b : ℕ} {l m : List ℕ} {i : ℕ} (h : pairAt a b l i) :
    pairAt a b (l ++ m) i := by
  have hlt := pairAt_lt_length h
  rcases h with ⟨h1, h2⟩
  refine ⟨?_, ?_⟩ <;> rw [List.getElem?_append] <;>
    simp only [if_pos (by omega : i < l.length), if_pos (by omega : i + 1 < l.length)] <;>
    assumption

theorem pairAt_append_inv {a b : ℕ} {l m : List ℕ} {i : ℕ}
    (hi : i + 1 < l.length) (h : pairAt a b (l ++ m) i) : pairAt a b l i := by
  rcases h with ⟨h1, h2⟩
  rw [List.getElem?_append, if_pos (by omega : i < l.length)] at h1
  rw [List.getElem?_append, if_pos hi] at h2
  exact ⟨h1, h2⟩

theorem pairAt_drop {a b : ℕ} {l : List ℕ} {k j : ℕ} :
    pairAt a b (l.drop k) j ↔ pairAt a b l (k + j) := by
  unfold pairAt
  rw [List.getElem?_drop, List.getElem?_drop]
  constructor <;> rintro ⟨h1, h2⟩ <;> refine ⟨h1, ?_⟩
  · rwa [show k + j + 1 = k + (j + 1) by omega]
  · rwa [show k + (j + 1) = k + j + 1 by omega]

theorem findPair_append_some {a b : ℕ} {l m : List ℕ} {i : ℕ}
    (h : findPair a b l = some i) : findPair a b (l ++ m) = some i := by
  obtain ⟨hp, hmin⟩ := findPair_eq_some_iff.mp h
  apply findPair_eq_some_iff.mpr
  refine ⟨pairAt_append_left hp, ?_⟩
  intro j hj hc
  have hlt := pairAt_lt_length hp
  exact hmin j hj (pairAt_append_inv (by omega) hc)

theorem demuxStep_none {buf : List ℕ} (h : findPair 0xFF 0xD8 buf = none) :
    demuxStep buf = ([], []) := by
  rw [demuxStep.eq_def, h]

theorem demuxStep_no_end {buf : List ℕ} {start : ℕ}
    (h1 : findPair 0xFF 0xD8 buf = some start)
    (h2 : findPair 0xFF 0xD9 (buf.drop (start + 2)) = none) :
    demuxStep buf = ([], if 0 < start then buf.drop start else buf) := by
  rw [demuxStep.eq_def, h1]
  dsimp only
  rw [h2]

theorem demuxStep_emit {buf : List ℕ} {start r : ℕ}
    (h1 : findPair 0xFF 0xD8 buf = some start)
    (h2 : findPair 0xFF 0xD9 (buf.drop (start + 2)) = some r) :
    demuxStep buf =
      ((buf.take (start + 2 + r + 2)).drop start ::
          (demuxStep (buf.drop (start + 2 + r + 2))).1,
        (demuxStep (buf.drop (start + 2 + r + 2))).2) := by
  rw [demuxStep.eq_def, h1]
  dsimp only
  rw [h2]

theorem startsWithL_iff_append {α : Type} [DecidableEq α] {s p : List α} :
    startsWithL s p = true ↔ ∃ r, s = p ++ r := by
  induction p generalizing s with
  | nil =>
    constructor
    · intro _; exact ⟨s, rfl⟩
    · intro _; cases s <;> rfl
  | cons c cs ih =>
    cases s with
    | nil =>
      constructor
      · intro h; cases h
      · rintro ⟨r, hr⟩; cases hr
    | cons x xs =>
      rw [startsWithL]
      constructor
      · intro h
        obtain ⟨hx, hrest⟩ := Bool.and_eq_true .. ▸ h
        obtain ⟨r, rfl⟩ := ih.mp hrest
        exact ⟨r, by rw [of_decide_eq_true hx]; rfl⟩
      · rintro ⟨r, hr⟩
        obtain ⟨rfl, rfl⟩ := List.cons_eq_cons.mp hr
        simp [ih]

/-- The inner loop of `_mjpeg_frames` on a buffer consisting of filler with
no start marker followed by well-formed JPEG spans emits exactly those spans
and retains nothing. -/
theorem demux_concat (frames : List (List ℕ)) :
    ∀ filler : List ℕ, findPair 0xFF 0xD8 filler = none →
    (∀ f ∈ frames, isJpegSpan f = true) →
    demuxStep (filler ++ frames.flatten) = (frames, []) := by
  induction frames with
  | nil =>
    intro filler hf _
    rw [List.flatten_nil, List.append_nil]
    exact demuxStep_none hf
  | cons f fs ih =>
    intro filler hf hw
    have hwf := hw f (List.mem_cons_self f fs)
    rw [isJpegSpan, Bool.and_eq_true] at hwf
    obtain ⟨hsw, hdec⟩ := hwf
    obtain ⟨f2, rfl⟩ := startsWithL_iff_append.mp hsw
    have hend' : findPair 0xFF 0xD9 f2 = some (f2.length - 2) := by
      have h := of_decide_eq_true hdec
      simpa using h
    have hk2 : 2 ≤ f2.length := by
      have := findPair_some_le hend'
      omega
    rw [List.flatten_cons]
    have h1 : findPair 0xFF 0xD8 (filler ++ (([0xFF, 0xD8] ++ f2) ++ fs.flatten)) =
        some filler.length := by
      apply findPair_eq_some_iff.mpr
      constructor
      · refine ⟨?_, ?_⟩ <;> rw [List.getElem?_append_right (by omega)] <;> simp
      · intro j hj hc
        rcases Nat.lt_or_ge (j + 1) filler.length with hlt | hge
        · exact findPair_eq_none_iff.mp hf j (pairAt_append_inv (by omega) hc)
        · have hj1 : j + 1 = filler.length := by omega
          rcases hc with ⟨-, hc2⟩
          rw [hj1, List.getElem?_append_right (by omega)] at hc2
          simp at hc2
    have hdrop : (filler ++ (([0xFF, 0xD8] ++ f2) ++ fs.flatten)).drop
        (filler.length + 2) = f2 ++ fs.flatten := by
      rw [show filler ++ (([0xFF, 0xD8] ++ f2) ++ fs.flatten) =
          (filler ++ [0xFF, 0xD8]) ++ (f2 ++ fs.flatten) by simp,
        show filler.length + 2 = (filler ++ [0xFF, 0xD8]).length by simp,
        List.drop_left]
    have h2 : findPair 0xFF 0xD9 ((filler ++ (([0xFF, 0xD8] ++ f2) ++ fs.flatten)).drop
        (filler.length + 2)) = some (f2.length - 2) := by
      rw [hdrop]
      exact findPair_append_some hend'
    rw [demuxStep_emit h1 h2]
    have harith : filler.length + 2 + (f2.length - 2) + 2 = filler.length + (2 + f2.length) := by
      omega
    rw [harith]
    have hassoc : filler ++ (([0xFF, 0xD8] ++ f2) ++ fs.flatten) =
        (filler ++ ([0xFF, 0xD8] ++ f2)) ++ fs.flatten := by simp
    have hlen2 : (filler ++ ([0xFF, 0xD8] ++ f2)).length = filler.length + (2 + f2.length) := by
      simp only [List.length_append, List.length_cons, List.length_nil]
      try omega
    have htake : ((filler ++ (([0xFF, 0xD8] ++ f2) ++ fs.flatten)).take
        (filler.length + (2 + f2.length))).drop filler.length = [0xFF, 0xD8] ++ f2 := by
      rw [hassoc, ← hlen2, List.take_left, List.drop_left]
    have hdrop2 : (filler ++ (([0xFF, 0xD8] ++ f2) ++ fs.flatten)).drop
        (filler.length + (2 + f2.length)) = fs.flatten := by
      rw [hassoc, ← hlen2, List.drop_left]
    rw [htake, hdrop2]
    have hrec := ih [] rfl (fun g hg => hw g (List.mem_cons_of_mem _ hg))
    rw [List.nil_append] at hrec
    rw [hrec]

/-- Every frame emitted by one buffer pass of `_mjpeg_frames` is well formed:
at least 4 bytes, starts with `FF D8`, ends with `FF D9`, and contains no
`FF D9` before its final two bytes. -/
theorem demux_frames_wf (n : ℕ) : ∀ buf : List ℕ, buf.length ≤ n →
    ∀ f ∈ (demuxStep buf).1,
      4 ≤ f.length ∧ pairAt 0xFF 0xD8 f 0 ∧ pairAt 0xFF 0xD9 f (f.length - 2) ∧
        ∀ i, i + 2 < f.length → ¬ pairAt 0xFF 0xD9 f i := by
  induction n with
  | zero =>
    intro buf hlen f hf
    have hb : buf = [] := List.length_eq_zero.mp (Nat.le_zero.mp hlen)
    subst hb
    rw [demuxStep_none (show findPair 0xFF 0xD8 [] = none from rfl)] at hf
    simp at hf
  | succ n ih =>
    intro buf hlen f hf
    cases h1 : findPair 0xFF 0xD8 buf with
    | none =>
      rw [demuxStep_none h1] at hf
      simp at hf
    | some start =>
      cases h2 : findPair 0xFF 0xD9 (buf.drop (start + 2)) with
      | none =>
        rw [demuxStep_no_end h1 h2] at hf
        simp at hf
      | some r =>
        rw [demuxStep_emit h1 h2] at hf
        have hs := findPair_eq_some_iff.mp h1
        have he := findPair_eq_some_iff.mp h2
        have hsl := findPair_some_le h1
        have hel := findPair_some_le h2
        rw [List.length_drop] at hel
        rcases List.mem_cons.mp hf with rfl | hfrec
        · have hbnd : start + 2 + r + 2 ≤ buf.length := by omega
          have hflen : ((buf.take (start + 2 + r + 2)).drop start).length = r + 4 := by
            simp only [List.length_drop, List.length_take]
            omega
          have hidx : ∀ i, i < r + 4 →
              ((buf.take (start + 2 + r + 2)).drop start)[i]? = buf[start + i]? := by
            intro i hi
            rw [List.getElem?_drop, List.getElem?_take, if_pos (by omega)]
          have hp1 : pairAt 0xFF 0xD8 buf start := hs.1
          have hp2 : pairAt 0xFF 0xD9 buf (start + 2 + r) := pairAt_drop.mp he.1
          refine ⟨by rw [hflen]; omega, ⟨?_, ?_⟩, ?_, ?_⟩
          · rw [hidx 0 (by omega)]
            simpa using hp1.1
          · show ((buf.take (start + 2 + r + 2)).drop start)[1]? = some 0xD8
            rw [hidx 1 (by omega)]
            exact hp1.2
          · rw [hflen, show r + 4 - 2 = r + 2 by omega]
            constructor
            · rw [hidx (r + 2) (by omega), show start + (r + 2) = start + 2 + r by omega]
              exact hp2.1
            · show ((buf.take (start + 2 + r + 2)).drop start)[r + 3]? = some 0xD9
              rw [hidx (r + 3) (by omega), show start + (r + 3) = start + 2 + r + 1 by omega]
              exact hp2.2
          · intro i hi hc
            rw [hflen] at hi
            rcases hc with ⟨hc1, hc2⟩
            match i with
            | 0 =>
              have hc2' : ((buf.take (start + 2 + r + 2)).drop start)[1]? = some 0xD9 := hc2
              rw [hidx 1 (by omega), hp1.2] at hc2'
              simp at hc2'
            | 1 =>
              rw [hidx 1 (by omega), hp1.2] at hc1
              simp at hc1
            | j + 2 =>
              apply he.2 j (by omega)
              constructor
              · rw [List.getElem?_drop, show start + 2 + j = start + (j + 2) by omega,
                  ← hidx (j + 2) (by omega)]
                exact hc1
              · rw [List.getElem?_drop, show start + 2 + (j + 1) = start + (j + 3) by omega,
                  ← hidx (j + 3) (by omega)]
                exact hc2
        · apply ih (buf.drop (start + 2 + r + 2)) ?_ f hfrec
          rw [List.length_drop]
          omega

theorem mjpegRead_frames_wf (chunks : List (List ℕ)) :
    ∀ (buf : List ℕ) (f : List ℕ), f ∈ mjpegRead buf chunks →
      4 ≤ f.length ∧ pairAt 0xFF 0xD8 f 0 ∧ pairAt 0xFF 0xD9 f (f.length - 2) ∧
        ∀ i, i + 2 < f.length → ¬ pairAt 0xFF 0xD9 f i := by
  induction chunks with
  | nil =>
    intro buf f hf
    simp [mjpegRead] at hf
  | cons c rest ih =>
    intro buf f hf
    rw [mjpegRead] at hf
    by_cases hc : c = []
    · rw [if_pos hc] at hf
      simp at hf
    · rw [if_neg hc] at hf
      rcases List.mem_append.mp hf with h | h
      · exact demux_frames_wf (buf ++ c).length (buf ++ c) (le_refl _) f h
      · exact ih _ f h

/-- C1: the claim says the filename builder defends against path-traversal in
the prefix and never lets the capture path escape the save directory.  The
code does not: `parse_message` hands the prefix of `shoot:1:/tmp/evil`
through unchanged, and `make_filename` joins it with `os.path.join`, whose
absolute-second-argument rule discards `SAVE_DIR` entirely, so the capture
file is written outside the save directory. -/
theorem C1_prefix_escapes_save_dir :
    parse_message 1 (encodeAscii "shoot:1:/tmp/evil".data) = some (1, "/tmp/evil".data) ∧
    make_filename "/tmp/evil".data "20250101_120000_000000".data =
      "/tmp/evil_20250101_120000_000000.jpg".data ∧
    startsWithL (make_filename "/tmp/evil".data "20250101_120000_000000".data) SAVE_DIR
      = false := by
  refine ⟨?_, by decide, by decide⟩
  simp [parse_message, pyStrip, isPySpace, pyFloat?, natOfDigits, decodeUtf8Ignore, encodeAscii,
    List.splitOn, List.splitOnP, List.splitOnP.go, startsWithL]

/-- C3 counterexample: the round-trip does NOT hold for every chunking.
`[FF D8 FF D9]` is one well-formed JPEG span (no filler), and delivered as a
single chunk it is emitted; but split into the chunks `[FF]` and
`[D8 FF D9]` — a read boundary inside the start marker — the demultiplexer
discards the lone `FF` (no start marker found ⇒ buffer cleared) and emits
zero frames from the very same byte stream. -/
theorem C3_chunk_split_loses_frame :
    isJpegSpan [0xFF, 0xD8, 0xFF, 0xD9] = true ∧
    [0xFF] ++ [0xD8, 0xFF, 0xD9] = [0xFF, 0xD8, 0xFF, 0xD9] ∧
    mjpeg_frames [[0xFF, 0xD8, 0xFF, 0xD9]] = [[0xFF, 0xD8, 0xFF, 0xD9]] ∧
    mjpeg_frames [[0xFF], [0xD8, 0xFF, 0xD9]] = [] := by
  refine ⟨by decide, by decide, ?_, ?_⟩ <;>
    simp [mjpeg_frames, mjpegRead, demuxStep, findPair]

/-- C3 (amended): when the whole stream — filler containing no start marker,
followed by N concatenated well-formed JPEG spans — arrives in a single read
chunk, the demultiplexer emits exactly the N spans, bit-identical and in
source order.  (For arbitrary chunkings the property fails; see the
counterexample.) -/
theorem C3_single_chunk_roundtrip (filler : List ℕ) (frames : List (List ℕ))
    (hf : findPair 0xFF 0xD8 filler = none)
    (hw : ∀ f ∈ frames, isJpegSpan f = true) :
    mjpeg_frames [filler ++ frames.flatten] = frames := by
  by_cases hempty : filler ++ frames.flatten = []
  · have hfr : frames = [] := by
      match frames with
      | [] => rfl
      | f :: fs =>
        exfalso
        have hf0 := hw f (List.mem_cons_self f fs)
        rcases List.append_eq_nil.mp hempty with ⟨-, hflat⟩
        rw [List.flatten_cons] at hflat
        rcases List.append_eq_nil.mp hflat with ⟨rfl, -⟩
        exact absurd hf0 (by decide)
    subst hfr
    rw [hempty]
    decide
  · show mjpegRead [] [filler ++ frames.flatten] = frames
    rw [mjpegRead, if_neg hempty, List.nil_append,
      demux_concat frames filler hf hw]
    simp [mjpegRead]

theorem C3_single_chunk_roundtrip_witness :
    mjpeg_frames [[0x00] ++ ([[0xFF, 0xD8, 0xFF, 0xD9], [0xFF, 0xD8, 0x61, 0xFF, 0xD9]] :
        List (List ℕ)).flatten] =
      [[0xFF, 0xD8, 0xFF, 0xD9], [0xFF, 0xD8, 0x61, 0xFF, 0xD9]] :=
  C3_single_chunk_roundtrip [0x00] _ (by decide) (by decide)

/-- C4: `busy_wait_until` returns only at a clock reading that has reached
the target `t`, and the capture utility is invoked a full
`TRIGGER_SETTLE_SEC` after that return, hence never before `t` (nor before
`t + TRIGGER_SETTLE_SEC`). -/
theorem C4_wait_then_settle (clock : ℕ → ℚ) (t : ℚ) (h : ∃ n, t ≤ clock n)
    (sleepDur : ℚ) (hs : TRIGGER_SETTLE_SEC ≤ sleepDur) :
    t ≤ busy_wait_until clock t h ∧
    busy_wait_until clock t h + TRIGGER_SETTLE_SEC ≤
      capture_invocation_time clock t h sleepDur ∧
    t + TRIGGER_SETTLE_SEC ≤ capture_invocation_time clock t h sleepDur := by
  have h1 : t ≤ clock (Nat.find h) := Nat.find_spec h
  have hpos : (0 : ℚ) < TRIGGER_SETTLE_SEC := by norm_num [TRIGGER_SETTLE_SEC]
  refine ⟨h1, ?_, ?_⟩ <;>
    simp only [capture_invocation_time, busy_wait_until, if_pos hpos] <;> linarith

/-- A clock that eventually reaches time 2 (sample input for C4). -/
theorem demo_clock_reaches : ∃ n : ℕ, (2 : ℚ) ≤ (fun n : ℕ => (n : ℚ)) n :=
  ⟨2, by norm_num⟩

theorem C4_wait_then_settle_witness :
    (2 : ℚ) ≤ busy_wait_until (fun n : ℕ => (n : ℚ)) 2 demo_clock_reaches ∧
    busy_wait_until (fun n : ℕ => (n : ℚ)) 2 demo_clock_reaches + TRIGGER_SETTLE_SEC ≤
      capture_invocation_time (fun n : ℕ => (n : ℚ)) 2 demo_clock_reaches TRIGGER_SETTLE_SEC ∧
    (2 : ℚ) + TRIGGER_SETTLE_SEC ≤
      capture_invocation_time (fun n : ℕ => (n : ℚ)) 2 demo_clock_reaches TRIGGER_SETTLE_SEC :=
  C4_wait_then_settle (fun n : ℕ => (n : ℚ)) 2 demo_clock_reaches TRIGGER_SETTLE_SEC (le_refl _)

/-- C5: the capture-acquisition path (`capture_jpeg`, which first calls
`_kill_stream`).  With no live-stream process active it performs no teardown
action and leaves the state untouched — a pure Idle → Capturing transition;
with a live stream it terminates it (terminate, bounded wait, force-kill on
timeout), so no stream consumer survives — the state is Idle — before the
capture utility runs (the last action of the trace). -/
theorem C5_acquire_for_capture (exitsInTime : Bool) (s : CamState) :
    (streamAlive s = false →
      capture_jpeg exitsInTime s = (s, [.runCaptureUtility])) ∧
    (streamAlive s = true →
      capture_jpeg exitsInTime s =
        (⟨none⟩, (if exitsInTime then [.terminate, .waitExit]
                  else [.terminate, .waitExit, .forceKill]) ++ [.runCaptureUtility]) ∧
      streamAlive (capture_jpeg exitsInTime s).1 = false) := by
  obtain ⟨sp⟩ := s
  match sp with
  | none => simp [capture_jpeg, kill_stream, streamAlive]
  | some ⟨true⟩ =>
    cases exitsInTime <;> simp [capture_jpeg, kill_stream, streamAlive]
  | some ⟨false⟩ => simp [capture_jpeg, kill_stream, streamAlive]

theorem C5_acquire_for_capture_witness :
    capture_jpeg true ⟨none⟩ = (⟨none⟩, [.runCaptureUtility]) ∧
    capture_jpeg false ⟨some ⟨true⟩⟩ =
      (⟨none⟩, [.terminate, .waitExit, .forceKill, .runCaptureUtility]) ∧
    streamAlive (capture_jpeg false ⟨some ⟨true⟩⟩).1 = false := by
  refine ⟨(C5_acquire_for_capture true ⟨none⟩).1 rfl, ?_, ?_⟩
  · have h := ((C5_acquire_for_capture false ⟨some ⟨true⟩⟩).2 rfl).1
    simpa using h
  · exact ((C5_acquire_for_capture false ⟨some ⟨true⟩⟩).2 rfl).2

/-- C6 counterexample: the claim that at most one camera consumer is ever
running and that the whole check–terminate–start critical section is under
the lock fails: `generate` spawns the stream process outside `_stream_lock`,
so the interleaving kill₀, spawn₀, kill₁, spawn₁ of two `/stream` requests
leaves two rpicam-vid processes alive at once. -/
theorem C6_interleaving_two_consumers :
    aliveCount (streamRun [false, false, true, true]) = 2 := by decide

/-- C6 (amended): each lock-protected step (`_kill_stream`'s teardown, the
handle update) is atomic, and when the two stream requests do not interleave
(each kill–spawn–record sequence completes before the other starts) every
intermediate instant has at most one live-stream process alive. -/
theorem C6_serialized_single_consumer :
    (∀ k : Fin 7, aliveCount (streamRun
      ((List.replicate 3 false ++ List.replicate 3 true).take k.val)) ≤ 1) ∧
    (∀ k : Fin 7, aliveCount (streamRun
      ((List.replicate 3 true ++ List.replicate 3 false).take k.val)) ≤ 1) := by decide

/-- C7: one unreachable node (here the second of three) is reported offline
while the other two nodes' inventories are returned intact and in order; the
aggregation is total — it neither raises nor drops the other entries. -/
theorem C7_partial_failure (fetch : List Char → Option InvResult)
    (ip1 ip2 ip3 h1 h3 : List Char) (imgs1 imgs3 : List (List Char))
    (f1 : fetch ip1 = some ⟨some h1, some imgs1⟩)
    (f2 : fetch ip2 = none)
    (f3 : fetch ip3 = some ⟨some h3, some imgs3⟩) :
    index_pis_data fetch [ip1, ip2, ip3] =
      [.online ip1 h1 imgs1, .offline ip2, .online ip3 h3 imgs3] := by
  simp [index_pis_data, f1, f2, f3]

theorem C7_partial_failure_witness :
    index_pis_data
      (fun ip =>
        if ip = "192.168.0.3".data then some ⟨some "pi1".data, some ["a.jpg".data]⟩
        else if ip = "192.168.0.4".data then some ⟨some "pi3".data, some ["c.jpg".data]⟩
        else none)
      ["192.168.0.3".data, "192.168.0.2".data, "192.168.0.4".data] =
      [.online "192.168.0.3".data "pi1".data ["a.jpg".data],
       .offline "192.168.0.2".data,
       .online "192.168.0.4".data "pi3".data ["c.jpg".data]] :=
  C7_partial_failure _ _ _ _ _ _ _ _ (by decide) (by decide) (by decide)

/-- C8 counterexample: the claim's not-found conjunct fails for the
aggregator proxy.  For the clean filename `missing.jpg` naming an absent
artifact, the node endpoint answers 404 (not-found) — but that 404 makes
`urllib.request.urlopen` raise `HTTPError` inside `proxy_image`, whose
blanket `except Exception` answers `abort(502)`: a bad-gateway outcome,
not a not-found one. -/
theorem C8_absent_artifact_proxy_bad_gateway :
    serve_image (fun _ => false) "missing.jpg".data =
      (.notFound, [posixJoin SAVE_DIR "missing.jpg".data]) ∧
    proxy_image (fun _ => none) 0 "missing.jpg".data =
      (.badGateway, [piImageUrl "192.168.0.3".data "missing.jpg".data]) ∧
    HttpResp.badGateway ≠ HttpResp.notFound := by
  refine ⟨by decide, by decide, by decide⟩

/-- C8 (amended): both artifact-fetch handlers reject a filename containing
`/` or `..` with a 400 client error while touching no filesystem path and
issuing no upstream request; a clean filename that names no existing file
yields 404 from the node endpoint after probing exactly the joined
save-directory path; the aggregator proxy, whose upstream request for an
absent artifact raises (the node's 404), answers 502 bad-gateway after
requesting exactly the node URL. -/
theorem C8_artifact_fetch_outcomes (fileExists : List Char → Bool)
    (upstream : List Char → Option (List ℕ)) (i : ℤ) (filename : List Char) :
    ((containsSeq "/".data filename || containsSeq "..".data filename) = true →
      serve_image fileExists filename = (.badRequest, []) ∧
      proxy_image upstream i filename = (.badRequest, [])) ∧
    ((containsSeq "/".data filename || containsSeq "..".data filename) = false →
      fileExists (posixJoin SAVE_DIR filename) = false →
      serve_image fileExists filename = (.notFound, [posixJoin SAVE_DIR filename])) ∧
    ((containsSeq "/".data filename || containsSeq "..".data filename) = false →
      0 ≤ i → i < (PI_IPS.length : ℤ) →
      upstream (piImageUrl (PI_IPS.getD i.toNat []) filename) = none →
      proxy_image upstream i filename =
        (.badGateway, [piImageUrl (PI_IPS.getD i.toNat []) filename])) := by
  refine ⟨?_, ?_, ?_⟩
  · intro h
    refine ⟨by simp [serve_image, h], ?_⟩
    unfold proxy_image
    by_cases hc : i < 0 ∨ (PI_IPS.length : ℤ) ≤ i
    · rw [if_pos hc]
    · rw [if_neg hc, if_pos h]
  · intro h hf
    unfold serve_image
    rw [if_neg (by simp [h]), if_neg (by simp [hf])]
  · intro h hi0 hilen hup
    unfold proxy_image
    rw [if_neg (by omega), if_neg (by simp [h])]
    dsimp only
    rw [hup]

theorem C8_artifact_fetch_outcomes_witness :
    serve_image (fun _ => false) "../../etc/passwd".data = (.badRequest, []) ∧
    proxy_image (fun _ => none) 1 "../../etc/passwd".data = (.badRequest, []) ∧
    serve_image (fun _ => false) "ghost.jpg".data =
      (.notFound, [posixJoin SAVE_DIR "ghost.jpg".data]) ∧
    proxy_image (fun _ => none) 0 "ghost.jpg".data =
      (.badGateway, [piImageUrl (PI_IPS.getD (0 : ℤ).toNat []) "ghost.jpg".data]) :=
  ⟨((C8_artifact_fetch_outcomes (fun _ => false) (fun _ => none) 1
      "../../etc/passwd".data).1 (by decide)).1,
   ((C8_artifact_fetch_outcomes (fun _ => false) (fun _ => none) 1
      "../../etc/passwd".data).1 (by decide)).2,
   ((C8_artifact_fetch_outcomes (fun _ => false) (fun _ => none) 1
      "ghost.jpg".data).2.1 (by decide) rfl),
   ((C8_artifact_fetch_outcomes (fun _ => false) (fun _ => none) 0
      "ghost.jpg".data).2.2 (by decide) (by decide) (by decide) rfl)⟩

/-- C10: every frame the demultiplexer emits, from any chunked stream, is at
least 4 bytes, begins with the start-of-image marker `FF D8`, ends with the
end-of-image marker `FF D9` as its final two bytes, and contains no `FF D9`
before those final two bytes; in particular no partial frame is ever emitted
(a dangling start marker at stream close yields nothing, since only
buffers with both markers produce a frame). -/
theorem C10_emitted_frame_wellformed (chunks : List (List ℕ)) (f : List ℕ)
    (hf : f ∈ mjpeg_frames chunks) :
    4 ≤ f.length ∧ pairAt 0xFF 0xD8 f 0 ∧ pairAt 0xFF 0xD9 f (f.length - 2) ∧
      ∀ i, i + 2 < f.length → ¬ pairAt 0xFF 0xD9 f i :=
  mjpegRead_frames_wf chunks [] f hf

theorem C10_emitted_frame_wellformed_witness :
    4 ≤ ([0xFF, 0xD8, 0x61, 0xFF, 0xD9] : List ℕ).length ∧
    pairAt 0xFF 0xD8 [0xFF, 0xD8, 0x61, 0xFF, 0xD9] 0 ∧
    pairAt 0xFF 0xD9 [0xFF, 0xD8, 0x61, 0xFF, 0xD9]
      (([0xFF, 0xD8, 0x61, 0xFF, 0xD9] : List ℕ).length - 2) ∧
    ∀ i, i + 2 < ([0xFF, 0xD8, 0x61, 0xFF, 0xD9] : List ℕ).length →
      ¬ pairAt 0xFF 0xD9 [0xFF, 0xD8, 0x61, 0xFF, 0xD9] i :=
  C10_emitted_frame_wellformed [[0xFF, 0xD8, 0x61, 0xFF, 0xD9]] _
    (by simp [mjpeg_frames, mjpegRead, demuxStep, findPair])

end PiCam
